import Mathlib

/-!
Shallow embedding of `cargo-vanish` (src/main.rs, src/project.rs, src/lib.rs).

A `Project` is identified by the path of its `Cargo.toml`; paths are modelled
as lists of path components (strings), so the Rust `PathBuf` comparison by
components becomes a lexicographic comparison `pathCmp` whose component order
`strCmp` compares the characters of the two strings.  Machine integers
(`u64` sizes) are modelled as `Nat`.  Fallible Rust code returning
`Result`/panicking is modelled with `Option`/dedicated result types, with
`none` (or a dedicated constructor) standing for the panic of an `unwrap`.
-/

namespace CargoVanish

/-- Name of a project, from src/project.rs: `Explicit` is the value of the
`package.name` field of the Cargo.toml, `Inferred` is used when no such field
exists and holds the string form of the parent directory of the Cargo.toml. -/
inductive Name where
  | Explicit (s : String)
  | Inferred (s : String)
deriving DecidableEq

/-- A discovered project, from src/project.rs: the path of its `Cargo.toml`
(as a list of path components), its name, and the byte size of its `target/`
directory (`none` when that directory does not exist). -/
structure Project where
  path : List String
  name : Name
  size : Option Nat
deriving DecidableEq

/-- Comparison of two characters by code point, the base of the byte-wise
string comparison Rust performs on path components. -/
def charCmp (a b : Char) : Ordering := compare a.toNat b.toNat

/-- Lexicographic comparison of two character lists. -/
def lexCmp : List Char → List Char → Ordering
  | [], [] => .eq
  | [], _ :: _ => .lt
  | _ :: _, [] => .gt
  | a :: as, b :: bs =>
    match charCmp a b with
    | .lt => .lt
    | .gt => .gt
    | .eq => lexCmp as bs

/-- Comparison of two strings (path components), lexicographic on their
characters, as in Rust's `str` ordering. -/
def strCmp (a b : String) : Ordering := lexCmp a.toList b.toList

/-- Comparison of two paths: lexicographic on their components, as in Rust's
`Path::cmp` used by `self.path.cmp(&other.path)` in src/project.rs. -/
def pathCmp : List String → List String → Ordering
  | [], [] => .eq
  | [], _ :: _ => .lt
  | _ :: _, [] => .gt
  | a :: as, b :: bs =>
    match strCmp a b with
    | .lt => .lt
    | .gt => .gt
    | .eq => pathCmp as bs

/-- Comparison of two optional sizes, as in Rust's derived `Ord` for
`Option<u64>` used by `self.size.cmp(&other.size)`: `None` is below every
`Some`, and two `Some`s compare by value. -/
def optCmp : Option Nat → Option Nat → Ordering
  | none, none => .eq
  | none, some _ => .lt
  | some _, none => .gt
  | some a, some b => compare a b

/-- Comparison of two projects, from `PartialOrd for Project` in
src/project.rs: compare the sizes; on `Equal` fall through to the path
comparison, otherwise keep the size ordering. -/
def projectCmp (a b : Project) : Ordering :=
  match optCmp a.size b.size with
  | .lt => .lt
  | .eq => pathCmp a.path b.path
  | .gt => .gt

/-- String form of a path, joining its components with the separator, as
`Path::to_str` renders the `PathBuf`s built by the walk. -/
def pathString (p : List String) : String := String.intercalate "/" p

/-- Parent of a path, as `Path::parent`: drop the final component; `none` for
the empty path (a root has no parent). -/
def parent (p : List String) : Option (List String) :=
  if p = [] then none else some p.dropLast

/-- A TOML value as far as src/project.rs inspects one: a string, a table of
key/value pairs, or anything else. -/
inductive Toml where
  | str (s : String)
  | table (entries : List (String × Toml))
  | other

/-- Lookup of a key in a TOML table, as `Table::get`. -/
def tomlGet (entries : List (String × Toml)) (key : String) : Option Toml :=
  match entries with
  | [] => none
  | (k, v) :: rest => if k = key then some v else tomlGet rest key

/-- View of a TOML value as a table, as `Value::as_table`. -/
def Toml.asTable : Toml → Option (List (String × Toml))
  | .table t => some t
  | _ => none

/-- View of a TOML value as a string, as `Value::as_str`. -/
def Toml.asStr : Toml → Option String
  | .str s => some s
  | _ => none

/-- The `package.name` lookup chain of `Project::new` (src/project.rs):
`toml.get("package").and_then(as_table).and_then(get "name").and_then(as_str)`. -/
def nameField (doc : List (String × Toml)) : Option String :=
  (((tomlGet doc "package").bind Toml.asTable).bind
    (fun pack => tomlGet pack "name")).bind Toml.asStr

/-- Name resolution of `Project::new` (src/project.rs lines 59-74): a string
`package.name` field becomes `Explicit`; otherwise the parent path of the
manifest, rendered as a string, becomes `Inferred`; a manifest path with no
parent is an error (`none`; the `to_str` failure on non-UTF-8 paths is elided
since path components are modelled as strings). -/
def resolveName (doc : List (String × Toml)) (path : List String) : Option Name :=
  match nameField doc with
  | some s => some (.Explicit s)
  | none =>
    match parent path with
    | none => none
    | some par => some (.Inferred (pathString par))

/-- The fallback matcher compiled from `\b\B` when no exclude pattern is
given (src/main.rs line 207); the code comments it as unmatchable: no
position is both a word boundary and a non-boundary, so it never finds a
match. -/
def unmatchable : String → Bool := fun _ => false

/-- The two ordered sets built by `Projects::new`; each `BTreeSet<Project>`
is modelled as the list of its elements in iteration order. -/
structure Projects where
  included : List Project
  ignored : List Project
deriving DecidableEq

/-- Whether a record matches the effective pattern: the compiled exclude
regex when one was supplied, the unmatchable fallback otherwise, run over
the string form of the manifest path (src/main.rs line 237). -/
def matchesPat (pat : Option (String → Bool)) (p : Project) : Bool :=
  (pat.getD unmatchable) (pathString p.path)

/-- Classification loop of `Projects::new` (src/main.rs lines 210-262): a
record whose path the matcher finds goes into `matches`, the rest into
`unmatched`; `invert` decides which set becomes `included`. -/
def classify (records : List Project) (re : String → Bool) (invert : Bool) : Projects :=
  let matched := records.filter (fun p => re (pathString p.path))
  let unmatched := records.filter (fun p => !re (pathString p.path))
  if invert then { included := matched, ignored := unmatched }
  else { included := unmatched, ignored := matched }

/-- Classification with the optional compiled pattern, the absent case using
the unmatchable fallback, as the `if let Some(re)` at src/main.rs 203-208. -/
def classifyOpt (records : List Project) (pat : Option (String → Bool)) (invert : Bool) :
    Projects :=
  classify records (pat.getD unmatchable) invert

/-- Entry to `Projects::new` including regex compilation: `compile` stands
for `Regex::new`, whose failure on an invalid pattern string hits the
`.unwrap()` at src/main.rs line 204; that panic is modelled as `none`. -/
def projectsNew (compile : String → Option (String → Bool)) (exclude : Option String)
    (records : List Project) (invert : Bool) : Option Projects :=
  match exclude with
  | some s =>
    match compile s with
    | some re => some (classify records re invert)
    | none => none
  | none => some (classify records unmatchable invert)

/-- One item of the walk stream feeding the discovery loop of
`Projects::new`: either an `Err` from the walker, or a yielded entry with
its file name and, for a `Cargo.toml`, the outcome of `Project::new` on it
(`none` when reading, parsing or name resolution fails). -/
inductive WalkItem where
  | walkErr
  | entry (fileName : String) (proj : Option Project)
deriving DecidableEq

/-- Discovery loop of `Projects::new` (src/main.rs lines 213-244): walker
errors are warned about and skipped (`filter_map`), entries not named
`Cargo.toml` are filtered out, and each manifest entry goes through
`Project::new(..).unwrap()` — a construction failure panics, modelled as a
`none` overall result. -/
def discover : List WalkItem → Option (List Project)
  | [] => some []
  | .walkErr :: rest => discover rest
  | .entry n proj :: rest =>
    if n = "Cargo.toml" then
      match proj with
      | none => none
      | some p => (discover rest).map (p :: ·)
    else discover rest

/-- A walk item that is a `Cargo.toml` whose record construction fails — the
kind of item whose `.unwrap()` panics. -/
def isBadManifest : WalkItem → Bool
  | .entry n none => n = "Cargo.toml"
  | _ => false

/-- The records of the successfully constructed `Cargo.toml` entries of a
walk stream, in stream order. -/
def goodProjects (items : List WalkItem) : List Project :=
  items.filterMap fun item =>
    match item with
    | .entry n (some p) => if n = "Cargo.toml" then some p else none
    | _ => none

mutual
/-- A directory tree: every node has a name (one path component); only
directories have children. -/
inductive FsTree where
  | file (name : String)
  | dir (name : String) (children : FsForest)
deriving DecidableEq
/-- A list of sibling trees (spelled out so the walk recursion below is
structural). -/
inductive FsForest where
  | nil
  | cons (head : FsTree) (tail : FsForest)
deriving DecidableEq
end

/-- Name of the root node of a tree. -/
def FsTree.name : FsTree → String
  | .file n => n
  | .dir n _ => n

mutual
/-- Depth-first enumeration of the entries below (and including) a node, as
`WalkDir` with `filter_entry(pred)`: an entry failing `pred` is neither
yielded nor descended into; each yielded entry is its path, the list of node
names from the walked root down. -/
def walkOne (pred : String → Bool) : FsTree → List (List String)
  | .file n => if pred n then [[n]] else []
  | .dir n cs => if pred n then [n] :: (walkMany pred cs).map (n :: ·) else []
/-- Walk of a forest of siblings, in order. -/
def walkMany (pred : String → Bool) : FsForest → List (List String)
  | .nil => []
  | .cons t ts => walkOne pred t ++ walkMany pred ts
end

/-- The `is_hidden` check of src/lib.rs lines 60-66: the file name starts
with a dot (the `unwrap_or(false)` escape for non-UTF-8 names is elided
since names are modelled as strings). -/
def isHiddenName (n : String) : Bool :=
  match n.toList with
  | [] => false
  | c :: _ => c = '.'

/-- The `filter_entry` predicate of src/main.rs line 215:
`!is_hidden(e) || config.hidden`. -/
def keepEntry (showHidden : Bool) (n : String) : Bool := !isHiddenName n || showHidden

/-- The manifest paths discovery yields from a tree: walk with hidden-entry
pruning, then keep entries whose file name (final path component) is exactly
`Cargo.toml` (src/main.rs lines 213-223). -/
def discoveredPaths (showHidden : Bool) (t : FsTree) : List (List String) :=
  (walkOne (keepEntry showHidden) t).filter (fun p => p.getLast? = some "Cargo.toml")

/-- One item of the walk stream under `target/` during size summation:
either an `Err` from the walker (dropped by `.filter_map(|e| e.ok())`), or a
yielded entry with whether it is a regular file and its `metadata()` result
(`none` when the metadata call fails). -/
inductive SizeEntry where
  | walkErr
  | found (isFile : Bool) (meta : Option Nat)
deriving DecidableEq

/-- The summation fold of `Project::dirsize` (src/project.rs lines 101-106):
walker errors are dropped, and every yielded entry contributes
`metadata().unwrap().len()` — a failing metadata call panics, modelled as a
`none` result. -/
def sumEntries (acc : Nat) : List SizeEntry → Option Nat
  | [] => some acc
  | .walkErr :: rest => sumEntries acc rest
  | .found _ none :: _ => none
  | .found _ (some len) :: rest => sumEntries (acc + len) rest

/-- Outcome of `Project::dirsize`: the `try_exists` error path, the panic of
the metadata unwrap, or the `Ok` value (`none` when `target/` is absent). -/
inductive DirsizeResult where
  | accessErr
  | panicked
  | ok (size : Option Nat)
deriving DecidableEq

/-- The `dirsize` control flow (src/project.rs lines 87-107): an error from
`try_exists` is returned with context, a missing `target/` gives `Ok(None)`,
and otherwise the walk under `target/` is summed. -/
def dirsize (targetExists : Except Unit Bool) (entries : List SizeEntry) : DirsizeResult :=
  match targetExists with
  | .error _ => .accessErr
  | .ok false => .ok none
  | .ok true =>
    match sumEntries 0 entries with
    | none => .panicked
    | some n => .ok (some n)

/-- A yielded entry whose metadata call fails. -/
def isMetaErr : SizeEntry → Bool
  | .found _ none => true
  | _ => false

/-- Metadata length a yielded entry contributes when readable. -/
def yieldedLen : SizeEntry → Nat
  | .found _ (some len) => len
  | _ => 0

/-- Total metadata length of all successfully yielded, readable entries. -/
def yieldedLenSum (entries : List SizeEntry) : Nat := (entries.map yieldedLen).sum

/-- Modelled from the spec: the total the specification asks for — the sum
of the byte lengths of the regular files only (directories and symlinks
contribute nothing).  Stated for comparison with the code's sum, which the
spec is claimed to describe. -/
def specRegularFileSum (entries : List SizeEntry) : Nat :=
  (entries.map fun e =>
    match e with
    | .found true (some len) => len
    | _ => 0).sum

/-- Leading and trailing whitespace removal on a character list, as
`str::trim`. -/
def trimChars (s : List Char) : List Char :=
  ((s.dropWhile Char.isWhitespace).reverse.dropWhile Char.isWhitespace).reverse

/-- The response normalisation `buf.trim().to_lowercase()` of
`Projects::clean` (src/main.rs line 287), at the character-list level. -/
def normalizeResp (s : String) : List Char := (trimChars s.toList).map Char.toLower

/-- Whether a response line is a negative answer: `["n", "no"]` membership
after normalisation. -/
def isNo (s : String) : Bool :=
  normalizeResp s = "n".toList || normalizeResp s = "no".toList

/-- Whether a response line is a positive answer: `["y", "yes"]` membership
after normalisation. -/
def isYes (s : String) : Bool :=
  normalizeResp s = "y".toList || normalizeResp s = "yes".toList

/-- The confirmation loop of `Projects::clean` (src/main.rs lines 279-299):
read a line; `n`/`no` decides `false` (abort), `y`/`yes` decides `true`,
anything else prints a notice and retries.  `responses` lists the
successfully read lines (a `read_line` error is warned about and retried, so
failed reads never surface here); `none` means the loop never reached a
decision. -/
def confirmLoop : List String → Option Bool
  | [] => none
  | r :: rest =>
    if isNo r then some false
    else if isYes r then some true
    else confirmLoop rest

/-- The per-project clean loop of `Vanish::clean` (src/main.rs lines
412-430): every project of the set is attempted in iteration order;
`launch p` tells whether `cargo clean --manifest-path p` could be spawned
(an `Err` is warned about and the loop continues either way).  The result
records each attempted path with its launch outcome. -/
def cleanBatch (launch : List String → Bool) : List Project → List (List String × Bool)
  | [] => []
  | p :: rest => (p.path, launch p.path) :: cleanBatch launch rest

/-- Outcome of `Projects::clean`: the user aborted, the confirmation loop
never reached a decision, or the batch ran with the given attempts. -/
inductive CleanOutcome where
  | aborted
  | stuck
  | ran (attempts : List (List String × Bool))
deriving DecidableEq

/-- The `Projects::clean` control flow (src/main.rs lines 274-304): the
confirmation prompt is entered exactly when `--yes` was not passed (the
first component records whether it was); a negative decision returns before
any cleaning, a positive one (or `--yes`) runs the batch over `included`. -/
def cleanRun (included : List Project) (yes : Bool) (responses : List String)
    (launch : List String → Bool) : Bool × CleanOutcome :=
  if yes then (false, .ran (cleanBatch launch included))
  else
    match confirmLoop responses with
    | some false => (true, .aborted)
    | some true => (true, .ran (cleanBatch launch included))
    | none => (true, .stuck)

/-- Example record with no artifact directory. -/
def exA : Project := ⟨["a", "Cargo.toml"], .Inferred "a", none⟩

/-- Example record with a measured artifact directory. -/
def exB : Project := ⟨["b", "Cargo.toml"], .Inferred "b", some 5⟩

/-- Example matcher: hits exactly the manifest path of `exB`. -/
def exMatchB : String → Bool := fun s => s = "b/Cargo.toml"

/-- Example walk stream whose second manifest fails to construct. -/
def exBadStream : List WalkItem :=
  [.entry "Cargo.toml" (some exA), .entry "Cargo.toml" none, .entry "Cargo.toml" (some exB)]

/-- Example tree: a hidden directory and a visible one, each holding a
manifest. -/
def exTree : FsTree :=
  .dir "root" (.cons (.dir ".git" (.cons (.file "Cargo.toml") .nil))
    (.cons (.dir "proj" (.cons (.file "Cargo.toml") .nil)) .nil))

theorem natCmp_swap (a b : Nat) : (compare a b).swap = compare b a := by
  rcases Nat.lt_trichotomy a b with h | h | h
  · rw [Nat.compare_eq_lt.mpr h, Nat.compare_eq_gt.mpr h]; rfl
  · rw [Nat.compare_eq_eq.mpr h, Nat.compare_eq_eq.mpr h.symm]; rfl
  · rw [Nat.compare_eq_gt.mpr h, Nat.compare_eq_lt.mpr h]; rfl

theorem charCmp_swap (a b : Char) : (charCmp a b).swap = charCmp b a :=
  natCmp_swap a.toNat b.toNat

theorem charCmp_eq_iff (a b : Char) : charCmp a b = .eq ↔ a = b := by
  unfold charCmp
  rw [Nat.compare_eq_eq]
  constructor
  · intro h
    have : Char.ofNat a.toNat = Char.ofNat b.toNat := by rw [h]
    rwa [Char.ofNat_toNat, Char.ofNat_toNat] at this
  · intro h; rw [h]

theorem lexCmp_swap (a b : List Char) : (lexCmp a b).swap = lexCmp b a := by
  induction a generalizing b with
  | nil => cases b <;> rfl
  | cons x xs ih =>
    cases b with
    | nil => rfl
    | cons y ys =>
      simp only [lexCmp]
      rcases h : charCmp x y with _ | _ | _ <;>
        rw [← charCmp_swap, h]
      · rfl
      · rw [← ih ys]; cases lexCmp xs ys <;> rfl
      · rfl

theorem lexCmp_eq_iff (a b : List Char) : lexCmp a b = .eq ↔ a = b := by
  induction a generalizing b with
  | nil => cases b <;> simp [lexCmp]
  | cons x xs ih =>
    cases b with
    | nil => simp [lexCmp]
    | cons y ys =>
      simp only [lexCmp]
      rcases h : charCmp x y with _ | _ | _
      · simp only [reduceCtorEq, false_iff]
        intro hc
        rw [List.cons.injEq] at hc
        rw [(charCmp_eq_iff x y).mpr hc.1] at h
        exact absurd h (by simp)
      · rw [ih ys, (charCmp_eq_iff x y).mp h]
        simp
      · simp only [reduceCtorEq, false_iff]
        intro hc
        rw [List.cons.injEq] at hc
        rw [(charCmp_eq_iff x y).mpr hc.1] at h
        exact absurd h (by simp)

theorem strCmp_swap (a b : String) : (strCmp a b).swap = strCmp b a :=
  lexCmp_swap a.toList b.toList

theorem strCmp_eq_iff (a b : String) : strCmp a b = .eq ↔ a = b := by
  unfold strCmp
  rw [lexCmp_eq_iff]
  constructor
  · intro h
    exact congrArg String.mk h
  · intro h; rw [h]

theorem pathCmp_swap (a b : List String) : (pathCmp a b).swap = pathCmp b a := by
  induction a generalizing b with
  | nil => cases b <;> rfl
  | cons x xs ih =>
    cases b with
    | nil => rfl
    | cons y ys =>
      simp only [pathCmp]
      rcases h : strCmp x y with _ | _ | _ <;>
        rw [← strCmp_swap, h]
      · rfl
      · rw [← ih ys]; cases pathCmp xs ys <;> rfl
      · rfl

theorem pathCmp_eq_iff (a b : List String) : pathCmp a b = .eq ↔ a = b := by
  induction a generalizing b with
  | nil => cases b <;> simp [pathCmp]
  | cons x xs ih =>
    cases b with
    | nil => simp [pathCmp]
    | cons y ys =>
      simp only [pathCmp]
      rcases h : strCmp x y with _ | _ | _
      · simp only [reduceCtorEq, false_iff]
        intro hc
        rw [List.cons.injEq] at hc
        rw [(strCmp_eq_iff x y).mpr hc.1] at h
        exact absurd h (by simp)
      · rw [ih ys, (strCmp_eq_iff x y).mp h]
        simp
      · simp only [reduceCtorEq, false_iff]
        intro hc
        rw [List.cons.injEq] at hc
        rw [(strCmp_eq_iff x y).mpr hc.1] at h
        exact absurd h (by simp)

theorem optCmp_swap (a b : Option Nat) : (optCmp a b).swap = optCmp b a := by
  cases a <;> cases b <;> first
    | rfl
    | exact natCmp_swap _ _

theorem optCmp_eq_iff (a b : Option Nat) : optCmp a b = .eq ↔ a = b := by
  cases a <;> cases b <;> simp [optCmp, Nat.compare_eq_eq]

theorem projectCmp_swap (a b : Project) : (projectCmp a b).swap = projectCmp b a := by
  unfold projectCmp
  rcases h : optCmp a.size b.size with _ | _ | _ <;>
    rw [← optCmp_swap, h]
  · rfl
  · exact pathCmp_swap a.path b.path
  · rfl

theorem mem_of_mem_dropLast {α : Type} {l : List α} {s : α} (h : s ∈ l.dropLast) :
    s ∈ l := by
  induction l with
  | nil => simp at h
  | cons a l ih =>
    cases l with
    | nil => simp [List.dropLast] at h
    | cons b l' =>
      rw [List.dropLast_cons₂] at h
      rcases List.mem_cons.mp h with h1 | h1
      · exact h1 ▸ List.mem_cons_self a _
      · exact List.mem_cons_of_mem a (ih h1)

theorem mem_of_mem_drop_one {α : Type} {l : List α} {s : α} (h : s ∈ l.drop 1) :
    s ∈ l := by
  cases l with
  | nil => simp at h
  | cons a l' => exact List.mem_cons_of_mem a (by simpa using h)

theorem projectCmp_eq_iff (a b : Project) :
    projectCmp a b = .eq ↔ a.size = b.size ∧ a.path = b.path := by
  unfold projectCmp
  rcases h : optCmp a.size b.size with _ | _ | _
  · simp only [reduceCtorEq, false_iff]
    intro hc
    rw [← optCmp_eq_iff a.size b.size, h] at hc
    exact absurd hc.1 (by simp)
  · rw [pathCmp_eq_iff, (optCmp_eq_iff a.size b.size).mp h]
    simp
  · simp only [reduceCtorEq, false_iff]
    intro hc
    rw [← optCmp_eq_iff a.size b.size, h] at hc
    exact absurd hc.1 (by simp)

mutual
theorem walkOne_all_pred (pred : String → Bool) (t : FsTree) :
    ∀ q ∈ walkOne pred t, ∀ s ∈ q, pred s = true := by
  cases t with
  | file n =>
    intro q hq s hs
    unfold walkOne at hq
    split at hq
    · next h =>
      rw [List.mem_singleton.mp hq] at hs
      rw [List.mem_singleton.mp hs]
      exact h
    · simp at hq
  | dir n cs =>
    intro q hq s hs
    unfold walkOne at hq
    split at hq
    · next h =>
      rcases List.mem_cons.mp hq with h1 | h1
      · rw [h1] at hs
        rw [List.mem_singleton.mp hs]
        exact h
      · rcases List.mem_map.mp h1 with ⟨q', hq', hqq⟩
        rw [← hqq] at hs
        rcases List.mem_cons.mp hs with h2 | h2
        · rw [h2]; exact h
        · exact walkMany_all_pred pred cs q' hq' s h2
    · simp at hq

theorem walkMany_all_pred (pred : String → Bool) (ts : FsForest) :
    ∀ q ∈ walkMany pred ts, ∀ s ∈ q, pred s = true := by
  cases ts with
  | nil => intro q hq; simp [walkMany] at hq
  | cons t rest =>
    intro q hq s hs
    unfold walkMany at hq
    rcases List.mem_append.mp hq with h1 | h1
    · exact walkOne_all_pred pred t q h1 s hs
    · exact walkMany_all_pred pred rest q h1 s hs
end

/-- C1: for every record set, optional (compiled) pattern and invert flag,
classification sends exactly the matching records to `ignored` and the rest
to `included` when `invert` is false, and swaps the destinations when
`invert` is true; with no pattern nothing matches, so with `invert` false
every record lands in `included`. -/
theorem classify_routing (records : List Project) (pat : Option (String → Bool))
    (invert : Bool) :
    (invert = false →
      (classifyOpt records pat invert).ignored = records.filter (matchesPat pat) ∧
      (classifyOpt records pat invert).included
        = records.filter (fun p => !matchesPat pat p)) ∧
    (invert = true →
      (classifyOpt records pat invert).included = records.filter (matchesPat pat) ∧
      (classifyOpt records pat invert).ignored
        = records.filter (fun p => !matchesPat pat p)) ∧
    (pat = none → ∀ p ∈ records, matchesPat pat p = false) ∧
    (pat = none → invert = false →
      (classifyOpt records pat invert).included = records ∧
      (classifyOpt records pat invert).ignored = []) := by
  refine ⟨?_, ?_, ?_, ?_⟩
  · intro h
    rw [h]
    exact ⟨rfl, rfl⟩
  · intro h
    rw [h]
    exact ⟨rfl, rfl⟩
  · intro h p _
    rw [h]
    rfl
  · intro hp hi
    rw [hp, hi]
    constructor
    · show records.filter (fun _ => !false) = records
      simp
    · show records.filter (fun _ => false) = []
      simp

/-- Witness for C1 at a concrete two-record set and a matcher hitting only
the second record, inverted. -/
theorem classify_routing_witness :
    (classifyOpt [exA, exB] (some exMatchB) true).included = [exB] ∧
    (classifyOpt [exA, exB] (some exMatchB) true).ignored = [exA] := by
  have h := (classify_routing [exA, exB] (some exMatchB) true).2.1 rfl
  exact ⟨h.1.trans (by decide), h.2.trans (by decide)⟩

/-- C2: for every record set and pattern/invert configuration, `included`
and `ignored` are disjoint and together hold exactly the records. -/
theorem classify_partition (records : List Project) (pat : Option (String → Bool))
    (invert : Bool) (r : Project) :
    (r ∈ records ↔
      r ∈ (classifyOpt records pat invert).included ∨
      r ∈ (classifyOpt records pat invert).ignored) ∧
    ¬(r ∈ (classifyOpt records pat invert).included ∧
      r ∈ (classifyOpt records pat invert).ignored) := by
  unfold classifyOpt classify
  cases invert <;>
    simp only [Bool.false_eq_true, if_false, if_true] <;>
    constructor
  · rw [List.mem_filter, List.mem_filter]
    by_cases h : matchesPat pat r = true
    · unfold matchesPat at h
      simp [h]
    · unfold matchesPat at h
      simp [h]
  · rw [List.mem_filter, List.mem_filter]
    rintro ⟨⟨-, h1⟩, -, h2⟩
    rw [Bool.not_eq_true'] at h1
    rw [h1] at h2
    exact Bool.false_ne_true h2
  · rw [List.mem_filter, List.mem_filter]
    by_cases h : matchesPat pat r = true
    · unfold matchesPat at h
      simp [h]
    · unfold matchesPat at h
      simp [h]
  · rw [List.mem_filter, List.mem_filter]
    rintro ⟨⟨-, h1⟩, -, h2⟩
    rw [Bool.not_eq_true'] at h2
    rw [h2] at h1
    exact Bool.false_ne_true h1

/-- Witness for C2 at a concrete configuration: the first record is in the
partition and not in both sets. -/
theorem classify_partition_witness :
    (exA ∈ (classifyOpt [exA, exB] (some exMatchB) false).included ∨
      exA ∈ (classifyOpt [exA, exB] (some exMatchB) false).ignored) ∧
    ¬(exA ∈ (classifyOpt [exA, exB] (some exMatchB) false).included ∧
      exA ∈ (classifyOpt [exA, exB] (some exMatchB) false).ignored) := by
  have h := classify_partition [exA, exB] (some exMatchB) false exA
  exact ⟨h.1.mp (by decide), h.2⟩

/-- C5: the record comparison is a strict total order — two records with
distinct manifest paths compare with exactly one of `lt`/`gt` (never `eq`),
the primary key is the size with the absent size as minimum, and equal sizes
fall through to the lexicographic path comparison. -/
theorem project_order_strict_total (a b : Project) (hne : a.path ≠ b.path) :
    ((projectCmp a b = .lt ∧ projectCmp b a = .gt) ∨
      (projectCmp a b = .gt ∧ projectCmp b a = .lt)) ∧
    projectCmp a b ≠ .eq ∧
    (∀ n, optCmp none (some n) = .lt) ∧
    (optCmp a.size b.size = .lt → projectCmp a b = .lt) ∧
    (optCmp a.size b.size = .gt → projectCmp a b = .gt) ∧
    (optCmp a.size b.size = .eq → projectCmp a b = pathCmp a.path b.path) := by
  have hne' : projectCmp a b ≠ .eq := fun hc => hne ((projectCmp_eq_iff a b).mp hc).2
  refine ⟨?_, hne', fun n => rfl, ?_, ?_, ?_⟩
  · rcases h : projectCmp a b with _ | _ | _
    · left
      refine ⟨rfl, ?_⟩
      rw [← projectCmp_swap, h]
      rfl
    · exact absurd h hne'
    · right
      refine ⟨rfl, ?_⟩
      rw [← projectCmp_swap, h]
      rfl
  · intro h
    unfold projectCmp
    rw [h]
  · intro h
    unfold projectCmp
    rw [h]
  · intro h
    unfold projectCmp
    rw [h]

/-- Witness for C5 at two concrete records: the sizeless record sorts
strictly below the sized one. -/
theorem project_order_strict_total_witness :
    optCmp exA.size exB.size = .lt ∧ projectCmp exA exB = .lt :=
  ⟨by decide, (project_order_strict_total exA exB (by decide)).2.2.2.1 (by decide)⟩

/-- C3 counterexample: at `a/b/Cargo.toml` with no `package.name` the code
infers the whole parent path string `a/b`, not the final component `b` the
claim names; and an empty-string `package.name` still yields `Explicit`,
where the claim requires a non-empty string. -/
theorem name_resolution_cex :
    resolveName [] ["a", "b", "Cargo.toml"] = some (.Inferred "a/b") ∧
    Name.Inferred "a/b" ≠ Name.Inferred "b" ∧
    resolveName [("package", .table [("name", .str "")])] ["a", "b", "Cargo.toml"]
      = some (.Explicit "") := by
  refine ⟨by decide, by decide, by decide⟩

/-- C3 amended: a present string `package.name` (empty included) yields
`Explicit` of that string; otherwise the name is `Inferred` of the string
form of the manifest's entire parent path. -/
theorem name_resolution (doc : List (String × Toml)) (path : List String) :
    (∀ s, nameField doc = some s → resolveName doc path = some (.Explicit s)) ∧
    (nameField doc = none → ∀ par, parent path = some par →
      resolveName doc path = some (.Inferred (pathString par))) := by
  constructor
  · intro s h
    unfold resolveName
    rw [h]
  · intro h par hp
    unfold resolveName
    rw [h, hp]

/-- Witness for the amended C3 at a concrete manifest document. -/
theorem name_resolution_witness :
    resolveName [("package", Toml.table [("name", Toml.str "foo")])] ["p", "Cargo.toml"]
      = some (.Explicit "foo") :=
  (name_resolution [("package", Toml.table [("name", Toml.str "foo")])]
    ["p", "Cargo.toml"]).1 "foo" (by decide)

theorem goodProjects_cons_walkErr (rest : List WalkItem) :
    goodProjects (.walkErr :: rest) = goodProjects rest := rfl

theorem goodProjects_cons_entry_none (n : String) (rest : List WalkItem) :
    goodProjects (.entry n none :: rest) = goodProjects rest := rfl

theorem goodProjects_cons_entry_some (n : String) (p : Project) (rest : List WalkItem) :
    goodProjects (.entry n (some p) :: rest)
      = if n = "Cargo.toml" then p :: goodProjects rest else goodProjects rest := by
  by_cases hn : n = "Cargo.toml" <;>
    simp [goodProjects, List.filterMap_cons, hn]

/-- C4 counterexample: in a walk stream whose second manifest fails to
construct, the `.unwrap()` panics: discovery returns nothing at all, even
though a later manifest (here the record of `exB`) constructed fine. -/
theorem discovery_error_cex :
    discover exBadStream = none ∧ exB ∈ goodProjects exBadStream :=
  ⟨rfl, by decide⟩

/-- C4 amended: walker traversal errors are skipped and never abort the
walk, but a `Cargo.toml` entry whose record construction fails aborts the
whole discovery (panic); when no manifest fails, discovery returns exactly
the constructed records in stream order. -/
theorem discovery_error_handling (items : List WalkItem) :
    discover items
      = (if items.any isBadManifest then none else some (goodProjects items)) ∧
    discover (WalkItem.walkErr :: items) = discover items := by
  refine ⟨?_, rfl⟩
  induction items with
  | nil => rfl
  | cons item rest ih =>
    cases item with
    | walkErr =>
      rw [show discover (WalkItem.walkErr :: rest) = discover rest from rfl, ih]
      simp [List.any_cons, isBadManifest, goodProjects_cons_walkErr]
    | entry n proj =>
      cases proj with
      | none =>
        by_cases hn : n = "Cargo.toml"
        · simp [discover, hn, isBadManifest, List.any_cons]
        · simp [discover, hn, isBadManifest, List.any_cons,
            goodProjects_cons_entry_none, ih]
      | some p =>
        by_cases hn : n = "Cargo.toml"
        · subst hn
          simp only [discover, if_true, ih, List.any_cons, isBadManifest,
            goodProjects_cons_entry_some, if_pos rfl, Bool.false_or]
          cases hA : rest.any isBadManifest <;> simp [hA]
        · simp [discover, hn, isBadManifest, List.any_cons,
            goodProjects_cons_entry_some, ih]

/-- C9: with hidden entries excluded, no discovered manifest path has a
dot-initial segment strictly between the walked root and the manifest file;
with hidden entries included, the walk is the unpruned one. -/
theorem hidden_pruning (t : FsTree) :
    (∀ p ∈ discoveredPaths false t, ∀ s ∈ (p.drop 1).dropLast, isHiddenName s = false) ∧
    (discoveredPaths true t
      = (walkOne (fun _ => true) t).filter (fun p => p.getLast? = some "Cargo.toml")) := by
  constructor
  · intro p hp s hs
    have hmem : p ∈ walkOne (keepEntry false) t := List.mem_of_mem_filter hp
    have h := walkOne_all_pred (keepEntry false) t p hmem s
      (mem_of_mem_drop_one (mem_of_mem_dropLast hs))
    unfold keepEntry at h
    simpa using h
  · unfold discoveredPaths
    have hpred : keepEntry true = fun _ => true := by
      funext n
      simp [keepEntry]
    rw [hpred]

/-- Witness for C9 at a concrete tree: the discovered path
`root/proj/Cargo.toml` has the non-hidden `proj` strictly between root and
manifest (the hidden `.git` manifest is pruned away). -/
theorem hidden_pruning_witness : isHiddenName "proj" = false :=
  (hidden_pruning exTree).1 ["root", "proj", "Cargo.toml"] (by decide) "proj" (by decide)

/-- C10: whenever the user-supplied pattern fails to compile, discovery
panics via the `.unwrap()` at src/main.rs line 204 (modelled as `none`)
regardless of the directory contents, instead of surfacing a setup error. -/
theorem invalid_pattern_panics (compile : String → Option (String → Bool)) (s : String)
    (records : List Project) (invert : Bool) (h : compile s = none) :
    projectsNew compile (some s) records invert = none := by
  simp [projectsNew, h]

/-- Witness for C10 with a compiler rejecting the pattern. -/
theorem invalid_pattern_panics_witness :
    projectsNew (fun _ => none) (some "(") [] false = none :=
  invalid_pattern_panics (fun _ => none) "(" [] false rfl

/-- C6 counterexample: with an empty `included` set and `--yes` absent, the
confirmation prompt is still entered — the code gates the prompt on the flag
alone, not on the set being non-empty. -/
theorem clean_confirm_cex :
    (cleanRun [] false ["n"] (fun _ => true)).1 = true := rfl

/-- C6 amended: the confirmation prompt is entered exactly when `--yes` is
absent, regardless of whether `included` is empty; and whenever the
(normalised) decisive response is `n`/`no`, clean aborts without invoking
the external clean command for any project. -/
theorem clean_confirm (included : List Project) (yes : Bool) (responses : List String)
    (launch : List String → Bool) :
    ((cleanRun included yes responses launch).1 = !yes) ∧
    (yes = false → confirmLoop responses = some false →
      cleanRun included yes responses launch = (true, .aborted)) := by
  refine ⟨?_, ?_⟩
  · unfold cleanRun
    cases yes
    · cases h : confirmLoop responses with
      | none => simp [h]
      | some b => cases b <;> simp [h]
    · simp
  · intro h1 h2
    subst h1
    unfold cleanRun
    simp [h2]

/-- Witness for the amended C6: a whitespace-padded, mixed-case negative
response aborts a concrete clean run. -/
theorem clean_confirm_witness :
    cleanRun [exA] false [" No "] (fun _ => true) = (true, .aborted) :=
  (clean_confirm [exA] false [" No "] (fun _ => true)).2 rfl (by decide)

/-- C7: the clean batch attempts every included project in iteration order
whatever the launch outcomes are, so one launch failure never stops the
batch; in particular with three projects the first and third are attempted
no matter what happens to the second. -/
theorem clean_batch_all_attempted (included : List Project) (launch : List String → Bool)
    (p1 p2 p3 : Project) :
    (cleanBatch launch included).map Prod.fst = included.map Project.path ∧
    cleanBatch launch [p1, p2, p3]
      = [(p1.path, launch p1.path), (p2.path, launch p2.path),
         (p3.path, launch p3.path)] := by
  constructor
  · induction included with
    | nil => rfl
    | cons p rest ih => simp [cleanBatch, ih]
  · rfl

theorem sumEntries_eq (entries : List SizeEntry) : ∀ acc,
    sumEntries acc entries
      = if entries.any isMetaErr then none else some (acc + yieldedLenSum entries) := by
  induction entries with
  | nil =>
    intro acc
    simp [sumEntries, yieldedLenSum]
  | cons e rest ih =>
    intro acc
    cases e with
    | walkErr =>
      rw [show sumEntries acc (SizeEntry.walkErr :: rest) = sumEntries acc rest from rfl,
        ih]
      simp [List.any_cons, isMetaErr, yieldedLenSum, List.map_cons, yieldedLen]
    | found f meta =>
      cases meta with
      | none => simp [sumEntries, List.any_cons, isMetaErr]
      | some len =>
        rw [show sumEntries acc (SizeEntry.found f (some len) :: rest)
            = sumEntries (acc + len) rest from rfl, ih]
        simp only [List.any_cons, isMetaErr, Bool.false_or, yieldedLenSum,
          List.map_cons, yieldedLen, List.sum_cons]
        cases hA : rest.any isMetaErr <;> simp [hA, Nat.add_assoc]

/-- C8 counterexample: a yielded entry whose metadata call fails makes the
summation panic rather than being skipped, and a non-file entry (here a
directory of metadata length 4096) is counted into the total even though
the spec's sum over regular files would give 0. -/
theorem dirsize_cex :
    dirsize (.ok true) [.found true (some 10), .found false none] = .panicked ∧
    dirsize (.ok true) [.found false (some 4096)] = .ok (some 4096) ∧
    specRegularFileSum [.found false (some 4096)] = 0 :=
  ⟨rfl, rfl, rfl⟩

/-- C8 amended: walker traversal errors are skipped, but the summation
counts the metadata length of every successfully yielded entry (directories
and symlinks included) and panics if any yielded entry's metadata call
fails; an existence-check failure gives the error result and a missing
`target/` gives `Ok(None)`. -/
theorem dirsize_error_handling (entries : List SizeEntry) :
    (∀ acc, sumEntries acc (SizeEntry.walkErr :: entries) = sumEntries acc entries) ∧
    (dirsize (.error ()) entries = .accessErr) ∧
    (dirsize (.ok false) entries = .ok none) ∧
    (dirsize (.ok true) entries
      = if entries.any isMetaErr then .panicked
        else .ok (some (yieldedLenSum entries))) := by
  refine ⟨fun acc => rfl, rfl, rfl, ?_⟩
  unfold dirsize
  rw [sumEntries_eq entries 0]
  cases hA : entries.any isMetaErr <;> simp [hA]

end CargoVanish
